import Mathlib

/-!
Shallow embedding of the `rust_fast_cache` storage engine
(`src/cache_service/cache.rs`, `src/memdb/memory_database.rs`,
`src/tools/mod.rs`) and proofs about the spec's claims.

Modelling conventions:
* byte sequences are `List Nat`; filesystem paths are lists of path
  components (`format("a/b", x)` in the source becomes list append of one
  component, faithful for keys that contain no path separator — the spec
  itself flags separator-carrying keys as an unvalidated caller hazard);
* the filesystem is an explicit value (association list of files plus a
  list of directories) threaded through every operation that touches it;
* `u64`/`u128` quantities are `Nat`; the only subtractions performed by
  the source are either guarded (`checked_sub`, explicit comparisons) or
  on counters the source keeps non-negative, so truncated `Nat`
  subtraction coincides with the machine behaviour on the states the
  claims are about;
* `io::Result` and the source's `expect` calls (Rust panics) are an
  explicit error monad `Except CacheErr`, with one constructor per
  distinct failure the modelled code can produce;
* the randomness drawn by `insert_cache_item` (`rng.gen_range(0, 3)`) and
  the clock (`get_nano_time`) are inputs of the corresponding functions.
-/

namespace RustFastCache

/-! Constants from `cache.rs`. -/

def ONE_BYTE : Nat := 1
def ONE_KIBIBYTE : Nat := ONE_BYTE * 1024
def ONE_MEBIBYTE : Nat := ONE_KIBIBYTE * 1024
def ONE_GIBIBYTE : Nat := ONE_MEBIBYTE * 1024
def TEN_GIBIBYTE : Nat := ONE_GIBIBYTE * 10

/-- Eviction strategies (`CleanseStrategy` in `cache.rs`). -/
inductive CleanseStrategy
  | LastAccess
  | LeastUsed
  | Combined
deriving DecidableEq

/-- Byte sequences (`Vec of u8`). -/
abbrev Bytes := List Nat

/-- Filesystem paths, as lists of components. -/
abbrev FsPath := List String

/-- Failure outcomes of the modelled code: `io` errors observable in the
source plus its `expect` panics. -/
inductive CacheErr
  | notFound
  | notADirectory
  | isDirectory
  | panicKeyWentMissing
  | panicNoValue
deriving DecidableEq

/-! Association-list helpers modelling `HashMap` (iteration order of the
Rust map is arbitrary; the list order stands for one admissible order). -/

/-- Insert-or-replace, as `HashMap::insert` does for the stored value. -/
def alistSet {β : Type} : List (String × β) → String → β → List (String × β)
  | [], k, v => [(k, v)]
  | (k', v') :: t, k, v =>
      if k' = k then (k, v) :: t else (k', v') :: alistSet t k v

/-- Key removal, as `HashMap::remove`. -/
def alistRemove {β : Type} (l : List (String × β)) (k : String) : List (String × β) :=
  l.filter (fun e => !(e.1 == k))

/-! Entry metadata (`DatabaseItem` in `memory_database.rs`). -/

structure DatabaseItem where
  value : Option Bytes
  last_access : Nat
  access_counter : Nat
  filepath : Option FsPath
deriving DecidableEq

/-- Size of `Option (Vec of u8)` on a 64-bit target (`std::mem::size_of_val`
of the `value` field). -/
def sizeOfOptionVec : Nat := 24

/-- Size of `u64` on a 64-bit target. -/
def sizeOfU64 : Nat := 8

/-- Size of `u128` on a 64-bit target. -/
def sizeOfU128 : Nat := 16

/-- Size of `Option PathBuf` on a 64-bit target. -/
def sizeOfOptionPathBuf : Nat := 24

/-- Length reported by `fs::metadata(..).len()` for a directory (a fixed
block size on the modelled platform; never reached on the states the
claims use). -/
def dirMetadataLen : Nat := 4096

def DatabaseItem.get_value_mem_size (d : DatabaseItem) : Nat :=
  (match d.value with
   | some v => v.length
   | none => 0) + sizeOfOptionVec

def DatabaseItem.get_mem_size (d : DatabaseItem) : Nat :=
  d.get_value_mem_size + sizeOfU64 + sizeOfU128 + sizeOfOptionPathBuf

/-! Filesystem model. -/

structure FS where
  files : List (FsPath × Bytes)
  dirs : List FsPath
deriving DecidableEq

/-- Does component list `p` start with component list `root`
(`root` equal to `p` included)? Used to delimit the subtree removed by
`remove_dir_all`. -/
def underPath : FsPath → FsPath → Bool
  | [], _ => true
  | _ :: _, [] => false
  | a :: as, b :: bs => a = b && underPath as bs

/-- Model of `Path::exists`. -/
def FS.existsPath (fs : FS) (p : FsPath) : Bool :=
  (fs.files.lookup p).isSome || fs.dirs.contains p

/-- Model of `std::fs::remove_dir_all`: deletes a directory and its whole
subtree; fails on a file (NotADirectory) and on a missing path (NotFound),
as the Rust function does. -/
def FS.remove_dir_all (fs : FS) (p : FsPath) : Except CacheErr FS :=
  if fs.dirs.contains p then
    .ok { files := fs.files.filter (fun e => !(underPath p e.1)),
          dirs := fs.dirs.filter (fun d => !(underPath p d)) }
  else if (fs.files.lookup p).isSome then .error .notADirectory
  else .error .notFound

/-- Model of `std::fs::create_dir_all` (idempotent). -/
def FS.create_dir_all (fs : FS) (p : FsPath) : FS :=
  if fs.dirs.contains p then fs else { fs with dirs := p :: fs.dirs }

/-- Replace or create the file at `p` with the given contents. Opening the
handle returned by `get_non_buffered_file_handle` (create plus truncate)
is `writeFile p empty`; the subsequent `write_all` is `writeFile p contents`. -/
def FS.writeFile (fs : FS) (p : FsPath) (contents : Bytes) : FS :=
  { fs with files := (p, contents) :: fs.files.filter (fun e => !(e.1 == p)) }

/-- Model of `DatabaseItem::get_disk_size`: size of the file at `filepath`
if it exists, else 0 (`fs::metadata` on an existing directory succeeds and
reports the directory inode's length). -/
def DatabaseItem.get_disk_size (d : DatabaseItem) (fs : FS) : Except CacheErr Nat :=
  match d.filepath with
  | some v =>
      if fs.existsPath v then
        match fs.files.lookup v with
        | some content => .ok content.length
        | none => .ok dirMetadataLen
      else .ok 0
  | none => .ok 0

/-! The concurrent index (`FastDB`, aliased `MemoryDatabase` at its use
sites). The lock discipline serialises every modelled operation, so the
map is embedded as a plain value. -/

abbrev DB := List (String × DatabaseItem)

instance {ε α : Type} [DecidableEq ε] [DecidableEq α] : DecidableEq (Except ε α) := by
  intro a b
  cases a <;> cases b <;> first
    | (apply isFalse; intro h; exact Except.noConfusion h)
    | (rename_i x y
       exact if h : x = y then isTrue (by rw [h]) else isFalse (by intro hc; cases hc; exact h rfl))

/-- One row of the eviction snapshot: the tuple
`(key, access_counter, last_access, mem_size, disk_size)` built by
`FastDB::get_keys`. -/
structure KeyInfo where
  key : String
  cnt : Nat
  la : Nat
  msize : Nat
  dsize : Except CacheErr Nat
deriving DecidableEq

/-- Sort order used by `get_keys` for each strategy: `sort_by` with
comparator `cmp` orders by the total preorder `cmp a b ≠ Greater`. -/
def keyLE : CleanseStrategy → KeyInfo → KeyInfo → Prop
  | .LastAccess => fun a b => a.la ≤ b.la
  | .LeastUsed => fun a b => a.cnt ≤ b.cnt
  | .Combined => fun a b => a.cnt < b.cnt ∨ (a.cnt = b.cnt ∧ a.la ≤ b.la)

instance (s : CleanseStrategy) : DecidableRel (keyLE s) := by
  cases s <;> (intro a b; simp only [keyLE]; infer_instance)

instance (s : CleanseStrategy) : IsTotal KeyInfo (keyLE s) := by
  cases s <;> constructor <;> intro a b <;> simp only [keyLE] <;> omega

instance (s : CleanseStrategy) : IsTrans KeyInfo (keyLE s) := by
  cases s <;> constructor <;> intro a b c <;> simp only [keyLE] <;> omega

/-- Snapshot row built by `get_keys` for one index entry. -/
def snapshotRow (fs : FS) (e : String × DatabaseItem) : KeyInfo :=
  ⟨e.1, e.2.access_counter, e.2.last_access, e.2.get_mem_size, e.2.get_disk_size fs⟩

/-- Model of `FastDB::get_keys`: snapshot every entry's key, counters and
footprints, then sort with the strategy's comparator. Rust's `sort_by` is
a stable sort; `List.insertionSort` is the (unique) stable sort for the
same total preorder, so the results agree. -/
def get_keys (db : DB) (fs : FS) (strat : CleanseStrategy) : List KeyInfo :=
  List.insertionSort (keyLE strat) (db.map (snapshotRow fs))

/-- Selection loop of `FastDB::cleanup_mem`: walk the sorted snapshot
while `to_clean` is nonzero, select keys whose disk size reads `Ok(0)`,
decrement `to_clean` by their memory size (comparison-guarded, so it
bottoms out at 0), skip keys whose disk size errored. -/
def selectToDisk : List KeyInfo → Nat → List String
  | [], _ => []
  | k :: ks, toClean =>
      if toClean = 0 then []
      else
        match k.dsize with
        | .ok v =>
            if v = 0 then
              k.key :: selectToDisk ks (if k.msize ≤ toClean then toClean - k.msize else 0)
            else selectToDisk ks toClean
        | .error _ => selectToDisk ks toClean

/-- Selection phase restated in the spec's own words (walk the sorted
candidates; stop once `to_free` is 0; select exactly the candidates whose
disk footprint reads zero, subtracting their memory footprint from
`to_free` saturating at 0 via truncated subtraction; skip candidates whose
footprint read failed). Written from the spec sentence to compare with the
source-derived `selectToDisk`. -/
def selectToDiskSpec : List KeyInfo → Nat → List String
  | [], _ => []
  | k :: ks, toFree =>
      if toFree = 0 then []
      else
        match k.dsize with
        | .ok 0 => k.key :: selectToDiskSpec ks (toFree - k.msize)
        | _ => selectToDiskSpec ks toFree

/-- Demotion loop of `FastDB::cleanup_mem`: for each selected key, look
the entry up (`expect` panics if it vanished), recreate its directory,
write the payload to `cache_path/key/cachefile` (the handle creation
truncates, the `expect` on a missing payload panics), clear the payload,
point `filepath` at the written file, and accumulate the bytes written. -/
def demoteLoop (cache_path : FsPath) :
    List String → DB → FS → Nat → Except CacheErr (Nat × DB × FS)
  | [], db, fs, ds => .ok (ds, db, fs)
  | k :: ks, db, fs, ds =>
      match db.lookup k with
      | none => .error .panicKeyWentMissing
      | some f0 =>
          let folder := cache_path ++ [k]
          -- the source first sets `filepath` to the folder; the value is
          -- overwritten below before the entry is stored back
          let f1 : DatabaseItem := { f0 with filepath := some folder }
          match (if fs.existsPath folder then fs.remove_dir_all folder else .ok fs) with
          | .error e => .error e
          | .ok fs1 =>
              let fs2 := fs1.create_dir_all folder
              let file_path := folder ++ ["cachefile"]
              let fs3 := fs2.writeFile file_path []
              match f1.value with
              | none => .error .panicNoValue
              | some value =>
                  let fs4 := fs3.writeFile file_path value
                  let f2 : DatabaseItem := { f1 with filepath := some file_path, value := none }
                  match f2.get_disk_size fs4 with
                  | .error e => .error e
                  | .ok dsize => demoteLoop cache_path ks (alistSet db k f2) fs4 (ds + dsize)

/-- Model of `FastDB::cleanup_mem`. -/
def cleanup_mem (db : DB) (fs : FS) (strat : CleanseStrategy) (to_clean : Nat)
    (cache_path : FsPath) : Except CacheErr (Nat × DB × FS) :=
  demoteLoop cache_path (selectToDisk (get_keys db fs strat) to_clean) db fs 0

/-- Selection loop of `FastDB::cleanup_disk`: every key whose disk size
read succeeds is selected, regardless of tier, decrementing `to_clean` by
its disk size (saturating); keys whose read errored are skipped. -/
def selectToRemove : List KeyInfo → Nat → List String
  | [], _ => []
  | k :: ks, toClean =>
      if toClean = 0 then []
      else
        match k.dsize with
        | .ok v => k.key :: selectToRemove ks (if v ≤ toClean then toClean - v else 0)
        | .error _ => selectToRemove ks toClean

/-- Removal loop of `FastDB::cleanup_disk`: delete each selected key's
folder (if it exists) and drop the entry from the index. -/
def removeLoop (cache_path : FsPath) :
    List String → DB → FS → Except CacheErr (DB × FS)
  | [], db, fs => .ok (db, fs)
  | k :: ks, db, fs =>
      let folder := cache_path ++ [k]
      match (if fs.existsPath folder then fs.remove_dir_all folder else .ok fs) with
      | .error e => .error e
      | .ok fs1 => removeLoop cache_path ks (alistRemove db k) fs1

/-- Model of `FastDB::cleanup_disk`. -/
def cleanup_disk (db : DB) (fs : FS) (strat : CleanseStrategy) (to_clean : Nat)
    (cache_path : FsPath) : Except CacheErr (DB × FS) :=
  removeLoop cache_path (selectToRemove (get_keys db fs strat) to_clean) db fs

/-! The `Cache` facade (`cache.rs`). The thread pool is maintenance
plumbing with no modelled behaviour. -/

structure Cache where
  max_ram_cache : Nat
  max_disk_cache : Nat
  decache_age : Nat
  cache_path : FsPath
  memdb : DB
  memdb_size : Nat
  diskdb_size : Nat
deriving DecidableEq

/-- Model of `Cache::remove_cache_item`: look the entry up, delete it from
the index, subtract its current memory size from `memdb_size`, and
`remove_dir_all` its recorded `filepath` when one is present. -/
def Cache.remove_cache_item (c : Cache) (fs : FS) (key : String) :
    Except CacheErr (Option DatabaseItem × Cache × FS) :=
  match c.memdb.lookup key with
  | some v =>
      let size := v.get_mem_size
      let c1 : Cache := { c with memdb := alistRemove c.memdb key,
                                 memdb_size := c.memdb_size - size }
      match v.filepath with
      | some p =>
          match fs.remove_dir_all p with
          | .ok fs' => .ok (none, c1, fs')
          | .error e => .error e
      | none => .ok (none, c1, fs)
  | none => .ok (none, c, fs)

/-- Model of `Cache::insert_cache_item`. `now` is the clock sample
(`get_nano_time`) and `r` is the value drawn from `rng.gen_range(0, 3)`
for the new entry's `access_counter` (the source carries a
`TODO remove after testing` on that draw). -/
def Cache.insert_cache_item (c : Cache) (fs : FS) (key : String) (value : Bytes)
    (now r : Nat) : Except CacheErr (Option DatabaseItem × Cache × FS) :=
  match c.remove_cache_item fs key with
  | .error e => .error e
  | .ok (_, c1, fs1) =>
      let dbi : DatabaseItem :=
        { value := some value, last_access := now, access_counter := r, filepath := none }
      let c2 : Cache := { c1 with memdb_size := c1.memdb_size + dbi.get_mem_size }
      .ok (c2.memdb.lookup key, { c2 with memdb := alistSet c2.memdb key dbi }, fs1)

/-- Model of `Cache::get_cache_item`: on a hit, refresh `last_access`,
bump `access_counter`, store the refreshed entry back and return it. -/
def Cache.get_cache_item (c : Cache) (key : String) (now : Nat) :
    Except CacheErr (Option DatabaseItem × Cache) :=
  match c.memdb.lookup key with
  | none => .ok (none, c)
  | some f =>
      let fx : DatabaseItem := { f with last_access := now,
                                        access_counter := f.access_counter + 1 }
      .ok (some fx, { c with memdb := alistSet c.memdb key fx })

/-- Model of `Cache::get_cache_value`: serve from the payload when
present; otherwise, if a `filepath` is recorded and exists, read the whole
file (reading a directory fails as the Rust read does); a recorded but
missing path yields `none`. -/
def Cache.get_cache_value (c : Cache) (fs : FS) (key : String) (now : Nat) :
    Except CacheErr (Option Bytes × Cache) :=
  match c.get_cache_item key now with
  | .error e => .error e
  | .ok (none, c1) => .ok (none, c1)
  | .ok (some fxi, c1) =>
      match fxi.value with
      | some v => .ok (some v, c1)
      | none =>
          match fxi.filepath with
          | none => .ok (none, c1)
          | some v =>
              if fs.existsPath v then
                match fs.files.lookup v with
                | some buff => .ok (some buff, c1)
                | none => .error .isDirectory
              else .ok (none, c1)

/-- Model of `Cache::cleanup_mem_cache`: no-op unless `memdb_size` exceeds
the new ceiling; otherwise run the store's memory cleanup for the excess.
The byte count `cleanup_mem` returns is discarded and `memdb_size` is left
unchanged, exactly as in the source. -/
def Cache.cleanup_mem_cache (c : Cache) (fs : FS) (strat : CleanseStrategy)
    (new_max_cache : Nat) : Except CacheErr (Cache × FS) :=
  if c.memdb_size ≤ new_max_cache then .ok (c, fs)
  else
    let to_clean := c.memdb_size - new_max_cache
    match cleanup_mem c.memdb fs strat to_clean c.cache_path with
    | .error e => .error e
    | .ok (_ds, db', fs') => .ok ({ c with memdb := db' }, fs')

/-- Model of `Cache::cleanup_disk_cache` — an empty function body in the
source. -/
def Cache.cleanup_disk_cache (c : Cache) (fs : FS) (_strat : CleanseStrategy)
    (_new_max_disk : Nat) : Cache × FS :=
  (c, fs)

/-- Model of `Cache::resize_cache`: unset parameters fall back to the
hardcoded defaults via `unwrap_or`; the memory branch runs when the new
RAM ceiling is below the previous RAM ceiling, the disk branch (a no-op)
when the new disk ceiling is below the previous one; finally both ceilings
are stored. -/
def Cache.resize_cache (c : Cache) (fs : FS) (mr md : Option Nat)
    (strat : Option CleanseStrategy) : Except CacheErr (Cache × FS) :=
  let new_max_ram := mr.getD ONE_GIBIBYTE
  let new_max_disk := md.getD TEN_GIBIBYTE
  let c_strat := strat.getD .Combined
  match (if new_max_ram < c.max_ram_cache
         then c.cleanup_mem_cache fs c_strat new_max_ram
         else .ok (c, fs)) with
  | .error e => .error e
  | .ok (c1, fs1) =>
      let (c2, fs2) := if new_max_disk < c1.max_disk_cache
                       then c1.cleanup_disk_cache fs1 c_strat new_max_disk
                       else (c1, fs1)
      .ok ({ c2 with max_ram_cache := new_max_ram, max_disk_cache := new_max_disk }, fs2)

/-- Sum of `get_mem_size` over the memory-resident entries (payload
present) — the quantity the spec says `memdb_size` must track. -/
def Cache.ramSum (c : Cache) : Nat :=
  (c.memdb.filter (fun e => e.2.value.isSome)).foldr (fun e acc => e.2.get_mem_size + acc) 0

/-- Access-bookkeeping refresh performed by `get_cache_item` on a hit. -/
def refreshedItem (it : DatabaseItem) (now : Nat) : DatabaseItem :=
  { it with last_access := now, access_counter := it.access_counter + 1 }

/-- The `resize_cache` contract as amended by claim C4: the store's memory
cleanup runs exactly when the new RAM ceiling is below both the previous
RAM ceiling and the current `memdb_size`, with target
`memdb_size - new ceiling`; unset parameters still fall back to the
hardcoded defaults and the disk branch is still a no-op. Written to be
compared with the source-derived `Cache.resize_cache`. -/
def resizeAmendedSpec (c : Cache) (fs : FS) (mr md : Option Nat)
    (strat : Option CleanseStrategy) : Except CacheErr (Cache × FS) :=
  let new_max_ram := mr.getD ONE_GIBIBYTE
  let new_max_disk := md.getD TEN_GIBIBYTE
  let c_strat := strat.getD .Combined
  if new_max_ram < c.max_ram_cache ∧ new_max_ram < c.memdb_size then
    match cleanup_mem c.memdb fs c_strat (c.memdb_size - new_max_ram) c.cache_path with
    | .error e => .error e
    | .ok (_, db2, fs2) =>
        .ok (⟨new_max_ram, new_max_disk, c.decache_age, c.cache_path, db2,
              c.memdb_size, c.diskdb_size⟩, fs2)
  else .ok ({ c with max_ram_cache := new_max_ram, max_disk_cache := new_max_disk }, fs)

/-! Concrete states used by the claim instances below. -/

/-- Default-configured cache over an empty index, cache path `cache`. -/
def c0 : Cache :=
  { max_ram_cache := ONE_GIBIBYTE, max_disk_cache := TEN_GIBIBYTE,
    decache_age := 86400, cache_path := ["cache"],
    memdb := [], memdb_size := 0, diskdb_size := 0 }

def fs0 : FS := { files := [], dirs := [["cache"]] }

/-- State after `insert_cache_item c0 fs0 "k" [1, 2, 3] 10 0`
(payload footprint 3 + 72 bytes of per-entry overhead). -/
def c1After : Cache :=
  { c0 with memdb := [("k", ⟨some [1, 2, 3], 10, 0, none⟩)], memdb_size := 75 }

/-- State after additionally resizing the RAM budget to 0: the entry is
demoted to disk but `memdb_size` is left at 75. -/
def c2After : Cache :=
  { c0 with max_ram_cache := 0,
            memdb := [("k", ⟨none, 10, 0, some ["cache", "k", "cachefile"]⟩)],
            memdb_size := 75 }

def fs2After : FS :=
  { files := [(["cache", "k", "cachefile"], [1, 2, 3])],
    dirs := [["cache", "k"], ["cache"]] }

/-- Cache whose budgets were previously raised above the defaults. -/
def cBig : Cache :=
  { c0 with max_ram_cache := 2 * ONE_GIBIBYTE, max_disk_cache := 2 * TEN_GIBIBYTE }

/-- Entry A of the spec's strategy-ordering example: count 5, time 100. -/
def itemA : DatabaseItem := ⟨some [], 100, 5, none⟩

/-- Entry B: count 1, time 200. -/
def itemB : DatabaseItem := ⟨some [], 200, 1, none⟩

/-- Entry C: count 1, time 50. -/
def itemC : DatabaseItem := ⟨some [], 50, 1, none⟩

def db3 : DB := [("A", itemA), ("B", itemB), ("C", itemC)]

/-- Memory-resident entry of footprint exactly 200 bytes. -/
def itemBig : DatabaseItem := ⟨some (List.replicate 128 7), 10, 0, none⟩

/-- Cache with RAM budget 100 and `memdb_size` 200 (budget was lowered
below usage earlier without demand for cleanup). -/
def cC4 : Cache :=
  { c0 with max_ram_cache := 100, memdb := [("k", itemBig)], memdb_size := 200 }

/-- A demoted entry whose 3-byte payload lives at `cache/k/cachefile`. -/
def demotedK : DatabaseItem := ⟨none, 10, 3, some ["cache", "k", "cachefile"]⟩

def fsD : FS :=
  { files := [(["cache", "k", "cachefile"], [1, 2, 3])],
    dirs := [["cache"], ["cache", "k"]] }

def cD : Cache := { c0 with memdb := [("k", demotedK)] }

/-- Index holding a demoted entry whose disk file was deleted externally:
its disk footprint reads 0 while its payload is `none`. -/
def dbGone : DB := [("k", ⟨none, 10, 0, some ["cache", "k", "cachefile"]⟩)]

/-! Helper lemmas about the association-list and path primitives. -/

theorem lookup_cons_eq {α β : Type} [BEq α] [LawfulBEq α] (k : α) (v : β) (t : List (α × β)) :
    ((k, v) :: t).lookup k = some v := by
  simp [List.lookup]

theorem lookup_cons_ne {α β : Type} [BEq α] [LawfulBEq α] (q k : α) (v : β) (t : List (α × β))
    (h : q ≠ k) : ((k, v) :: t).lookup q = t.lookup q := by
  simp [List.lookup, beq_eq_false_iff_ne.mpr h]

theorem lookup_alistSet_self {β : Type} (l : List (String × β)) (k : String) (v : β) :
    (alistSet l k v).lookup k = some v := by
  induction l with
  | nil => simp [alistSet, List.lookup]
  | cons e t ih =>
      obtain ⟨k1, v1⟩ := e
      by_cases h : k1 = k
      · simp only [alistSet, if_pos h]
        exact lookup_cons_eq k v t
      · simp only [alistSet, if_neg h]
        rw [lookup_cons_ne k k1 v1 _ (Ne.symm h)]
        exact ih

theorem lookup_alistSet_ne {β : Type} (l : List (String × β)) (k k' : String) (v : β)
    (h : k' ≠ k) : (alistSet l k v).lookup k' = l.lookup k' := by
  induction l with
  | nil => simp [alistSet, List.lookup, beq_eq_false_iff_ne.mpr h]
  | cons e t ih =>
      obtain ⟨k1, v1⟩ := e
      by_cases he : k1 = k
      · subst he
        rw [show alistSet ((k1, v1) :: t) k1 v = (k1, v) :: t from by simp [alistSet]]
        rw [lookup_cons_ne k' k1 v _ h, lookup_cons_ne k' k1 v1 _ h]
      · simp only [alistSet, if_neg he]
        by_cases hk : k' = k1
        · subst hk
          rw [lookup_cons_eq, lookup_cons_eq]
        · rw [lookup_cons_ne k' k1 v1 _ hk, lookup_cons_ne k' k1 v1 _ hk]
          exact ih

theorem lookup_filter_key {α β : Type} [BEq α] [LawfulBEq α] (l : List (α × β))
    (p : α → Bool) (q : α) (hq : p q = true) :
    (l.filter (fun e => p e.1)).lookup q = l.lookup q := by
  induction l with
  | nil => simp
  | cons e t ih =>
      obtain ⟨k1, v1⟩ := e
      by_cases hp : p k1 = true
      · by_cases hk : q = k1
        · subst hk
          simp only [List.filter_cons, hp, if_pos]
          rw [lookup_cons_eq, lookup_cons_eq]
        · simp only [List.filter_cons, hp, if_pos]
          rw [lookup_cons_ne q k1 v1 _ hk, lookup_cons_ne q k1 v1 _ hk]
          exact ih
      · have hk : q ≠ k1 := fun h => hp (h ▸ hq)
        simp only [List.filter_cons, hp]
        rw [if_neg (by simp [hp]), lookup_cons_ne q k1 v1 _ hk]
        exact ih

theorem contains_filter_of_holds {α : Type} [BEq α] [LawfulBEq α] (l : List α)
    (p : α → Bool) (q : α) (hq : p q = true) :
    (l.filter p).contains q = l.contains q := by
  induction l with
  | nil => simp
  | cons e t ih =>
      by_cases hp : p e = true
      · rw [List.filter_cons, if_pos hp, List.contains_cons, List.contains_cons, ih]
      · have hk : (q == e) = false := by
          rw [beq_eq_false_iff_ne]
          intro h; exact hp (h ▸ hq)
        rw [List.filter_cons, if_neg hp, List.contains_cons, hk, Bool.false_or, ih]

theorem underPath_append (p : FsPath) : ∀ x y, underPath (p ++ x) (p ++ y) = underPath x y := by
  induction p with
  | nil => intro x y; rfl
  | cons a t ih => intro x y; simp [underPath, ih]

theorem underPath_self_append (p x : FsPath) : underPath p (p ++ x) = true := by
  have := underPath_append p [] x
  simpa using this

theorem underPath_folder_iff (p : FsPath) (a b : String) (x : FsPath) :
    underPath (p ++ [a]) (p ++ b :: x) = true ↔ a = b := by
  rw [underPath_append p [a] (b :: x)]
  simp [underPath]

/-! Filesystem preservation lemmas. -/

theorem writeFile_lookup_self (fs : FS) (p : FsPath) (c : Bytes) :
    (fs.writeFile p c).files.lookup p = some c :=
  lookup_cons_eq p c _

theorem writeFile_lookup_ne (fs : FS) (p q : FsPath) (c : Bytes) (h : q ≠ p) :
    (fs.writeFile p c).files.lookup q = fs.files.lookup q := by
  unfold FS.writeFile
  rw [lookup_cons_ne q p c _ h]
  refine lookup_filter_key fs.files (fun x => !(x == p)) q ?hh
  show (!(q == p)) = true
  rw [beq_eq_false_iff_ne.mpr h]
  rfl

theorem writeFile_dirs (fs : FS) (p : FsPath) (c : Bytes) :
    (fs.writeFile p c).dirs = fs.dirs := rfl

theorem create_dir_all_files (fs : FS) (p : FsPath) :
    (fs.create_dir_all p).files = fs.files := by
  unfold FS.create_dir_all
  split <;> rfl

theorem create_dir_all_contains_self (fs : FS) (p : FsPath) :
    (fs.create_dir_all p).dirs.contains p = true := by
  unfold FS.create_dir_all
  split
  · assumption
  · simp [List.contains_cons]

theorem create_dir_all_contains_ne (fs : FS) (p q : FsPath) (h : q ≠ p) :
    (fs.create_dir_all p).dirs.contains q = fs.dirs.contains q := by
  unfold FS.create_dir_all
  split
  · rfl
  · rw [List.contains_cons, beq_eq_false_iff_ne.mpr h, Bool.false_or]

theorem remove_dir_all_ok (fs : FS) (p : FsPath) (fs' : FS)
    (h : fs.remove_dir_all p = .ok fs') :
    fs' = { files := fs.files.filter (fun e => !(underPath p e.1)),
            dirs := fs.dirs.filter (fun d => !(underPath p d)) } := by
  unfold FS.remove_dir_all at h
  split at h
  · exact (Except.ok.injEq _ _).mp h |>.symm
  · split at h <;> exact absurd h (by simp)

theorem remove_dir_all_ok_files (fs : FS) (p : FsPath) (fs' : FS)
    (h : fs.remove_dir_all p = .ok fs') (q : FsPath) (hq : underPath p q = false) :
    fs'.files.lookup q = fs.files.lookup q := by
  rw [remove_dir_all_ok fs p fs' h]
  refine lookup_filter_key fs.files (fun x => !(underPath p x)) q ?hh
  show (!(underPath p q)) = true
  rw [hq]
  rfl

theorem remove_dir_all_ok_dirs (fs : FS) (p : FsPath) (fs' : FS)
    (h : fs.remove_dir_all p = .ok fs') (q : FsPath) (hq : underPath p q = false) :
    fs'.dirs.contains q = fs.dirs.contains q := by
  rw [remove_dir_all_ok fs p fs' h]
  refine contains_filter_of_holds fs.dirs (fun d => !(underPath p d)) q ?hh
  show (!(underPath p q)) = true
  rw [hq]
  rfl

/-! Stepping lemmas for the demotion loop. -/

/-- The entry stored back for a demoted key and the filesystem left behind
by one successful iteration of the demotion loop. -/
def demotedItem (path : FsPath) (k : String) (f0 : DatabaseItem) : DatabaseItem :=
  { value := none, last_access := f0.last_access, access_counter := f0.access_counter,
    filepath := some (path ++ [k] ++ ["cachefile"]) }

def demotedFS (path : FsPath) (k : String) (fs1 : FS) (pl : Bytes) : FS :=
  ((fs1.create_dir_all (path ++ [k])).writeFile (path ++ [k] ++ ["cachefile"]) []).writeFile
    (path ++ [k] ++ ["cachefile"]) pl

theorem demoteLoop_cons_ok (path : FsPath) (k : String) (ks : List String) (db : DB)
    (fs : FS) (ds0 : Nat) (f0 : DatabaseItem) (pl : Bytes) (fs1 : FS)
    (hlook : db.lookup k = some f0)
    (hval : f0.value = some pl)
    (hrm : (if fs.existsPath (path ++ [k]) then fs.remove_dir_all (path ++ [k])
            else .ok fs) = .ok fs1) :
    demoteLoop path (k :: ks) db fs ds0 =
      demoteLoop path ks (alistSet db k (demotedItem path k f0))
        (demotedFS path k fs1 pl) (ds0 + pl.length) := by
  have hself : (demotedFS path k fs1 pl).files.lookup (path ++ [k] ++ ["cachefile"]) =
      some pl := writeFile_lookup_self _ _ _
  have hex : (demotedFS path k fs1 pl).existsPath (path ++ [k] ++ ["cachefile"]) = true := by
    unfold FS.existsPath
    rw [hself]
    rfl
  have hdisk : (demotedItem path k f0).get_disk_size (demotedFS path k fs1 pl) =
      .ok pl.length := by
    show (if (demotedFS path k fs1 pl).existsPath (path ++ [k] ++ ["cachefile"]) = true then
            match (demotedFS path k fs1 pl).files.lookup (path ++ [k] ++ ["cachefile"]) with
            | some content => Except.ok content.length
            | none => Except.ok dirMetadataLen
          else Except.ok 0) = Except.ok pl.length
    rw [if_pos hex, hself]
  simp only [demoteLoop, hlook, hrm, hval]
  simp only [demotedItem, demotedFS] at hdisk
  rw [hdisk]
  rfl

theorem demoteLoop_cons_ok_inv (path : FsPath) (k : String) (ks : List String) (db : DB)
    (fs : FS) (ds0 : Nat) (r : Nat × DB × FS)
    (h : demoteLoop path (k :: ks) db fs ds0 = .ok r) :
    ∃ f0 pl fs1, db.lookup k = some f0 ∧ f0.value = some pl ∧
      (if fs.existsPath (path ++ [k]) then fs.remove_dir_all (path ++ [k])
       else .ok fs) = .ok fs1 := by
  simp only [demoteLoop] at h
  split at h
  · exact absurd h (by simp)
  · rename_i f0 hlook
    split at h
    · exact absurd h (by simp)
    · rename_i fs1 hrm
      split at h
      · exact absurd h (by simp)
      · rename_i pl hval
        exact ⟨f0, pl, fs1, hlook, hval, hrm⟩

theorem underPath_refl (p : FsPath) : underPath p p = true := by
  induction p with
  | nil => rfl
  | cons a t ih => simp [underPath, ih]

theorem underPath_folder_file (p : FsPath) (a b : String) :
    underPath (p ++ [a]) (p ++ [b] ++ ["cachefile"]) = true ↔ a = b := by
  rw [List.append_assoc]
  exact underPath_folder_iff p a b ["cachefile"]

theorem underPath_folder_folder (p : FsPath) (a b : String) :
    underPath (p ++ [a]) (p ++ [b]) = true ↔ a = b := by
  rw [underPath_append p [a] [b]]
  simp [underPath]

theorem demotedFS_lookup_ne (path : FsPath) (k : String) (fs fs1 : FS) (pl : Bytes)
    (q : FsPath)
    (hrm : (if fs.existsPath (path ++ [k]) then fs.remove_dir_all (path ++ [k])
            else .ok fs) = .ok fs1)
    (hq : underPath (path ++ [k]) q = false) :
    (demotedFS path k fs1 pl).files.lookup q = fs.files.lookup q := by
  have hne : q ≠ path ++ [k] ++ ["cachefile"] := by
    intro he
    rw [he, underPath_self_append (path ++ [k]) ["cachefile"]] at hq
    exact Bool.noConfusion hq
  unfold demotedFS
  rw [writeFile_lookup_ne _ _ _ _ hne, writeFile_lookup_ne _ _ _ _ hne,
    create_dir_all_files]
  split at hrm
  · exact remove_dir_all_ok_files fs (path ++ [k]) fs1 hrm q hq
  · cases hrm
    rfl

theorem demotedFS_contains_ne (path : FsPath) (k : String) (fs fs1 : FS) (pl : Bytes)
    (q : FsPath)
    (hrm : (if fs.existsPath (path ++ [k]) then fs.remove_dir_all (path ++ [k])
            else .ok fs) = .ok fs1)
    (hq : underPath (path ++ [k]) q = false) :
    (demotedFS path k fs1 pl).dirs.contains q = fs.dirs.contains q := by
  have hne : q ≠ path ++ [k] := by
    intro he
    rw [he, underPath_refl] at hq
    exact Bool.noConfusion hq
  unfold demotedFS
  rw [writeFile_dirs, writeFile_dirs, create_dir_all_contains_ne _ _ _ hne]
  split at hrm
  · exact remove_dir_all_ok_dirs fs (path ++ [k]) fs1 hrm q hq
  · cases hrm
    rfl

theorem demotedFS_contains_folder (path : FsPath) (k : String) (fs1 : FS) (pl : Bytes) :
    (demotedFS path k fs1 pl).dirs.contains (path ++ [k]) = true := by
  unfold demotedFS
  rw [writeFile_dirs, writeFile_dirs]
  exact create_dir_all_contains_self fs1 (path ++ [k])

/-- Cumulative effect of a successful demotion loop on distinct keys: each
processed key's entry had a payload, is stored back demoted (payload
cleared, `filepath` at its cachefile) with the payload on disk and its
directory present; unprocessed keys and unrelated paths are untouched. -/
theorem demoteLoop_effects (path : FsPath) :
    ∀ (ks : List String) (db : DB) (fs : FS) (ds0 ds : Nat) (db2 : DB) (fs2 : FS),
      ks.Nodup →
      demoteLoop path ks db fs ds0 = .ok (ds, db2, fs2) →
      ((∀ k ∈ ks, ∃ orig pl, db.lookup k = some orig ∧ orig.value = some pl ∧
          db2.lookup k = some (demotedItem path k orig) ∧
          fs2.files.lookup (path ++ [k] ++ ["cachefile"]) = some pl ∧
          fs2.dirs.contains (path ++ [k]) = true)
       ∧ (∀ k, k ∉ ks → db2.lookup k = db.lookup k)
       ∧ (∀ q, (∀ k ∈ ks, underPath (path ++ [k]) q = false) →
            fs2.files.lookup q = fs.files.lookup q)
       ∧ (∀ q, (∀ k ∈ ks, underPath (path ++ [k]) q = false) →
            fs2.dirs.contains q = fs.dirs.contains q)) := by
  intro ks
  induction ks with
  | nil =>
      intro db fs ds0 ds db2 fs2 _ h
      simp only [demoteLoop] at h
      obtain ⟨rfl, rfl, rfl⟩ : ds0 = ds ∧ db = db2 ∧ fs = fs2 := by
        have := (Except.ok.injEq _ _).mp h
        exact ⟨congrArg Prod.fst this,
               congrArg (fun x => x.2.1) this, congrArg (fun x => x.2.2) this⟩
      refine ⟨by simp, fun k _ => rfl, fun q _ => rfl, fun q _ => rfl⟩
  | cons k ks ih =>
      intro db fs ds0 ds db2 fs2 hnd h
      have hknotin : k ∉ ks := (List.nodup_cons.mp hnd).1
      have hndks : ks.Nodup := (List.nodup_cons.mp hnd).2
      obtain ⟨f0, pl, fs1, hlook, hval, hrm⟩ :=
        demoteLoop_cons_ok_inv path k ks db fs ds0 _ h
      rw [demoteLoop_cons_ok path k ks db fs ds0 f0 pl fs1 hlook hval hrm] at h
      obtain ⟨hA, hB, hC, hD⟩ :=
        ih (alistSet db k (demotedItem path k f0)) (demotedFS path k fs1 pl)
          (ds0 + pl.length) ds db2 fs2 hndks h
      have hne_of_mem : ∀ k1, k1 ∈ ks → k1 ≠ k := fun k1 hm he => hknotin (he ▸ hm)
      have hfile_cond : ∀ k1 ∈ ks, underPath (path ++ [k1]) (path ++ [k] ++ ["cachefile"]) = false := by
        intro k1 hm
        have : ¬ underPath (path ++ [k1]) (path ++ [k] ++ ["cachefile"]) = true := by
          rw [underPath_folder_file]
          exact hne_of_mem k1 hm
        exact Bool.not_eq_true _ ▸ (Bool.eq_false_iff.mpr (fun hh => this hh))
      have hdir_cond : ∀ k1 ∈ ks, underPath (path ++ [k1]) (path ++ [k]) = false := by
        intro k1 hm
        exact Bool.eq_false_iff.mpr (fun hh => hne_of_mem k1 hm (by
          rw [← underPath_folder_folder path k1 k]; exact hh))
      refine ⟨?_, ?_, ?_, ?_⟩
      · intro k1 hk1
        rcases List.mem_cons.mp hk1 with he | hm
        · subst he
          refine ⟨f0, pl, hlook, hval, ?_, ?_, ?_⟩
          · rw [hB k1 hknotin, lookup_alistSet_self]
          · rw [hC _ hfile_cond]
            exact writeFile_lookup_self _ _ _
          · rw [hD _ hdir_cond]
            exact demotedFS_contains_folder path k1 fs1 pl
        · obtain ⟨orig, pl1, hlook1, hval1, hdb1, hfs1, hdd1⟩ := hA k1 hm
          refine ⟨orig, pl1, ?_, hval1, hdb1, hfs1, hdd1⟩
          rw [← hlook1]
          exact (lookup_alistSet_ne db k k1 _ (hne_of_mem k1 hm)).symm
      · intro k1 hk1
        have hk1k : k1 ≠ k := fun he => hk1 (he ▸ List.mem_cons_self k (ks))
        have hk1ks : k1 ∉ ks := fun hm => hk1 (List.mem_cons_of_mem k hm)
        rw [hB k1 hk1ks, lookup_alistSet_ne db k k1 _ hk1k]
      · intro q hq
        have hqtail : ∀ k1 ∈ ks, underPath (path ++ [k1]) q = false :=
          fun k1 hm => hq k1 (List.mem_cons_of_mem k hm)
        rw [hC q hqtail]
        exact demotedFS_lookup_ne path k fs fs1 pl q hrm (hq k (List.mem_cons_self k ks))
      · intro q hq
        have hqtail : ∀ k1 ∈ ks, underPath (path ++ [k1]) q = false :=
          fun k1 hm => hq k1 (List.mem_cons_of_mem k hm)
        rw [hD q hqtail]
        exact demotedFS_contains_ne path k fs fs1 pl q hrm (hq k (List.mem_cons_self k ks))

theorem rmIf_error_cases (fs : FS) (p : FsPath) (e : CacheErr)
    (h : (if fs.existsPath p then fs.remove_dir_all p else .ok fs) = .error e) :
    e = .notADirectory ∨ e = .notFound := by
  split at h
  · unfold FS.remove_dir_all at h
    split at h
    · exact absurd h (by simp)
    · split at h
      · exact Or.inl ((Except.error.injEq _ _).mp h).symm
      · exact Or.inr ((Except.error.injEq _ _).mp h).symm
  · exact absurd h (by simp)

/-- The demotion loop can only hit the missing-payload `expect` when some
processed key's current entry has no payload: with distinct keys all
carrying payloads, that failure is impossible. -/
theorem demoteLoop_no_panicNoValue (path : FsPath) :
    ∀ (ks : List String) (db : DB) (fs : FS) (ds0 : Nat),
      ks.Nodup →
      (∀ k ∈ ks, ∃ orig, db.lookup k = some orig ∧ orig.value.isSome = true) →
      demoteLoop path ks db fs ds0 ≠ .error .panicNoValue := by
  intro ks
  induction ks with
  | nil =>
      intro db fs ds0 _ _ h
      simp [demoteLoop] at h
  | cons k ks ih =>
      intro db fs ds0 hnd hval h
      have hknotin : k ∉ ks := (List.nodup_cons.mp hnd).1
      have hndks : ks.Nodup := (List.nodup_cons.mp hnd).2
      obtain ⟨orig, hlook, hv⟩ := hval k (List.mem_cons_self k ks)
      obtain ⟨pl, hpl⟩ := Option.isSome_iff_exists.mp hv
      cases hrm : (if fs.existsPath (path ++ [k]) then fs.remove_dir_all (path ++ [k])
                   else .ok fs) with
      | error e =>
          have hd : demoteLoop path (k :: ks) db fs ds0 = .error e := by
            simp only [demoteLoop, hlook, hrm]
          rw [hd] at h
          have he : e = .panicNoValue := (Except.error.injEq _ _).mp h
          rcases rmIf_error_cases fs (path ++ [k]) e hrm with h1 | h1 <;>
            (rw [he] at h1; exact CacheErr.noConfusion h1)
      | ok fs1 =>
          rw [demoteLoop_cons_ok path k ks db fs ds0 orig pl fs1 hlook hpl hrm] at h
          refine ih (alistSet db k (demotedItem path k orig)) (demotedFS path k fs1 pl)
            (ds0 + pl.length) hndks ?_ h
          intro k1 hm
          obtain ⟨o1, hl1, hv1⟩ := hval k1 (List.mem_cons_of_mem k hm)
          refine ⟨o1, ?_, hv1⟩
          rw [lookup_alistSet_ne db k k1 _ (fun he => hknotin (he ▸ hm))]
          exact hl1

theorem selectToDisk_eq_spec : ∀ (keys : List KeyInfo) (t : Nat),
    selectToDisk keys t = selectToDiskSpec keys t := by
  intro keys
  induction keys with
  | nil => intro t; rfl
  | cons k ks ih =>
      intro t
      simp only [selectToDisk, selectToDiskSpec]
      by_cases ht : t = 0
      · rw [if_pos ht, if_pos ht]
      · rw [if_neg ht, if_neg ht]
        cases hd : k.dsize with
        | error e => simp only [ih]
        | ok v =>
            cases v with
            | zero =>
                simp only [ih]
                have hsub : (if k.msize ≤ t then t - k.msize else 0) = t - k.msize := by
                  split
                  · rfl
                  · omega
                rw [hsub]
                simp
            | succ n =>
                simp only [ih]
                simp

theorem selectToDisk_sound : ∀ (keys : List KeyInfo) (t : Nat) (k : String),
    k ∈ selectToDisk keys t → ∃ e, e ∈ keys ∧ e.key = k ∧ e.dsize = .ok 0 := by
  intro keys
  induction keys with
  | nil => intro t k h; simp [selectToDisk] at h
  | cons e ks ih =>
      intro t k h
      simp only [selectToDisk] at h
      by_cases ht : t = 0
      · rw [if_pos ht] at h
        simp at h
      · rw [if_neg ht] at h
        cases hd : e.dsize with
        | error er =>
            rw [hd] at h
            obtain ⟨e1, hm, hk, hz⟩ := ih _ _ h
            exact ⟨e1, List.mem_cons_of_mem e hm, hk, hz⟩
        | ok v =>
            rw [hd] at h
            cases v with
            | zero =>
                rcases List.mem_cons.mp h with he | hm
                · exact ⟨e, List.mem_cons_self e ks, he.symm, hd⟩
                · obtain ⟨e1, hm1, hk, hz⟩ := ih _ _ hm
                  exact ⟨e1, List.mem_cons_of_mem e hm1, hk, hz⟩
            | succ n =>
                obtain ⟨e1, hm, hk, hz⟩ := ih _ _ h
                exact ⟨e1, List.mem_cons_of_mem e hm, hk, hz⟩

theorem selectToDisk_sublist : ∀ (keys : List KeyInfo) (t : Nat),
    (selectToDisk keys t).Sublist (keys.map (fun e => e.key)) := by
  intro keys
  induction keys with
  | nil => intro t; simp [selectToDisk]
  | cons e ks ih =>
      intro t
      simp only [selectToDisk, List.map_cons]
      by_cases ht : t = 0
      · rw [if_pos ht]; exact List.nil_sublist _
      · rw [if_neg ht]
        cases hd : e.dsize with
        | error er => exact (ih t).cons e.key
        | ok v =>
            cases v with
            | zero => exact (ih _).cons₂ e.key
            | succ n => exact (ih t).cons e.key

theorem get_keys_keys_perm (db : DB) (fs : FS) (strat : CleanseStrategy) :
    ((get_keys db fs strat).map (fun e => e.key)).Perm (db.map Prod.fst) := by
  unfold get_keys
  have h2 := (List.perm_insertionSort (keyLE strat) (db.map (snapshotRow fs))).map
    (fun e => e.key)
  refine h2.trans ?_
  rw [List.map_map]
  rfl

theorem selected_nodup (db : DB) (fs : FS) (strat : CleanseStrategy) (t : Nat)
    (h : (db.map Prod.fst).Nodup) :
    (selectToDisk (get_keys db fs strat) t).Nodup :=
  List.Nodup.sublist (selectToDisk_sublist _ _)
    ((get_keys_keys_perm db fs strat).nodup_iff.mpr h)

theorem lookup_of_mem_nodup {β : Type} :
    ∀ (l : List (String × β)) (k : String) (v : β),
      (l.map Prod.fst).Nodup → (k, v) ∈ l → l.lookup k = some v := by
  intro l
  induction l with
  | nil => intro k v _ hm; simp at hm
  | cons e t ih =>
      intro k v hnd hm
      obtain ⟨k1, v1⟩ := e
      rcases List.mem_cons.mp hm with he | hm1
      · cases he
        exact lookup_cons_eq k v t
      · have hk : k ≠ k1 := by
          intro he1
          have hmem : k1 ∈ t.map Prod.fst := by
            subst he1
            exact List.mem_map.mpr ⟨(k, v), hm1, rfl⟩
          exact (List.nodup_cons.mp hnd).1 hmem
        rw [lookup_cons_ne k k1 v1 t hk]
        exact ih k v (List.nodup_cons.mp hnd).2 hm1

theorem mem_get_keys (db : DB) (fs : FS) (strat : CleanseStrategy) (e : KeyInfo) :
    e ∈ get_keys db fs strat ↔ e ∈ db.map (snapshotRow fs) :=
  List.mem_insertionSort (keyLE strat)

/-- Under the tier invariant (disk footprint 0 implies payload present) on
a duplicate-free index, `cleanup_mem` cannot reach the missing-payload
`expect`. -/
theorem cleanup_mem_no_panic (db : DB) (fs : FS) (strat : CleanseStrategy) (t : Nat)
    (path : FsPath) (hnd : (db.map Prod.fst).Nodup)
    (hinv : ∀ kv ∈ db, kv.2.get_disk_size fs = .ok 0 → kv.2.value.isSome = true) :
    cleanup_mem db fs strat t path ≠ .error .panicNoValue := by
  unfold cleanup_mem
  refine demoteLoop_no_panicNoValue path _ db fs 0 (selected_nodup db fs strat t hnd) ?_
  intro k hk
  obtain ⟨e, hmem, hkey, hdz⟩ := selectToDisk_sound _ _ _ hk
  rw [mem_get_keys] at hmem
  obtain ⟨kv, hkv, hrow⟩ := List.mem_map.mp hmem
  have hlk : db.lookup kv.1 = some kv.2 := lookup_of_mem_nodup db kv.1 kv.2 hnd hkv
  have hk1 : kv.1 = k := by
    rw [← hkey, ← hrow]
    exact rfl
  have hds : kv.2.get_disk_size fs = .ok 0 := by
    rw [show kv.2.get_disk_size fs = e.dsize from by rw [← hrow]; exact rfl]
    exact hdz
  exact ⟨kv.2, hk1 ▸ hlk, hinv kv hkv hds⟩

/-! Claim theorems. -/

/-- C1: the accounting invariant `memdb_size = sum of get_mem_size over
payload-carrying entries` holds after a plain insert, but a memory-cleanup
pass that demotes the entry leaves `memdb_size` unchanged (the byte count
returned by the store's cleanup is discarded), so after demotion
`ram_used` is 75 while the memory-resident sum is 0 — the invariant is
violated and `ram_used` is not reduced by the demoted footprint. -/
theorem C1_demotion_breaks_ram_accounting :
    c0.insert_cache_item fs0 "k" [1, 2, 3] 10 0 = .ok (none, c1After, fs0)
    ∧ c1After.memdb_size = c1After.ramSum
    ∧ c1After.resize_cache fs0 (some 0) (some TEN_GIBIBYTE) none = .ok (c2After, fs2After)
    ∧ c2After.ramSum = 0
    ∧ c2After.memdb_size = 75
    ∧ c2After.memdb_size ≠ c2After.ramSum :=
  ⟨rfl, rfl, rfl, rfl, rfl, by decide⟩

/-- C2: `resize_cache` with `none` budgets does not keep the current
values: a cache with budgets raised to 2 GiB / 20 GiB is reset to the
hardcoded defaults of 1 GiB / 10 GiB by `resize_cache none none none`. -/
theorem C2_resize_none_resets_to_defaults :
    cBig.resize_cache fs0 none none none =
      .ok ({ cBig with max_ram_cache := ONE_GIBIBYTE, max_disk_cache := TEN_GIBIBYTE }, fs0)
    ∧ cBig.max_ram_cache = 2 * ONE_GIBIBYTE
    ∧ cBig.max_disk_cache = 2 * TEN_GIBIBYTE
    ∧ ONE_GIBIBYTE ≠ 2 * ONE_GIBIBYTE
    ∧ TEN_GIBIBYTE ≠ 2 * TEN_GIBIBYTE :=
  ⟨rfl, rfl, rfl, by decide, by decide⟩

/-- C3: resizing the disk budget to 0 while 3 bytes are on disk leaves the
index and the filesystem completely unchanged, because
`Cache::cleanup_disk_cache` is an empty stub; the store-level
`cleanup_disk` algorithm itself, run on the same state, does evict the
entry and delete its directory — but `resize_cache` never invokes it. -/
theorem C3_resize_disk_cleanup_is_stub :
    cD.resize_cache fsD (some ONE_GIBIBYTE) (some 0) none =
      .ok ({ cD with max_disk_cache := 0 }, fsD)
    ∧ demotedK.get_disk_size fsD = .ok 3
    ∧ cleanup_disk cD.memdb fsD .Combined 3 ["cache"] =
        .ok ([], { files := [], dirs := [["cache"]] }) :=
  ⟨rfl, rfl, rfl⟩

/-- C5: `insert_cache_item` initialises `access_counter` with the value
drawn from `rng.gen_range(0, 3)`, not with 0: when the generator yields 2
(an admissible draw), the stored entry's counter is 2. -/
theorem C5_insert_access_counter_randomized :
    c0.insert_cache_item fs0 "k" [7] 10 2 =
      .ok (none, { c0 with memdb := [("k", ⟨some [7], 10, 2, none⟩)], memdb_size := 73 }, fs0)
    ∧ (2 : Nat) ≠ 0 :=
  ⟨rfl, by decide⟩

/-- C6: the eviction snapshot is sorted ascending by `last_access` alone
for `LastAccess`, by `access_counter` alone for `LeastUsed`, and
lexicographically by `(access_counter, last_access)` for `Combined`; on
the spec's example A(count 5, t 100), B(count 1, t 200), C(count 1, t 50)
the orders are C,B,A (Combined), B,C,A (LeastUsed — B and C before A) and
C,A,B (LastAccess). -/
theorem C6_strategy_ordering :
    (∀ (a b : KeyInfo), keyLE .LastAccess a b ↔ a.la ≤ b.la)
    ∧ (∀ (a b : KeyInfo), keyLE .LeastUsed a b ↔ a.cnt ≤ b.cnt)
    ∧ (∀ (a b : KeyInfo), keyLE .Combined a b ↔
        (a.cnt < b.cnt ∨ (a.cnt = b.cnt ∧ a.la ≤ b.la)))
    ∧ (∀ (strat : CleanseStrategy) (db : DB) (fs : FS),
        List.Sorted (keyLE strat) (get_keys db fs strat))
    ∧ (get_keys db3 fs0 .Combined).map (fun e => e.key) = ["C", "B", "A"]
    ∧ (get_keys db3 fs0 .LeastUsed).map (fun e => e.key) = ["B", "C", "A"]
    ∧ (get_keys db3 fs0 .LastAccess).map (fun e => e.key) = ["C", "A", "B"] := by
  refine ⟨fun a b => Iff.rfl, fun a b => Iff.rfl, fun a b => Iff.rfl,
    fun strat db fs => List.sorted_insertionSort (keyLE strat) _,
    by decide, by decide, by decide⟩

/-- C9: for a key demoted to disk, the stored `filepath` names the data
file `cache/k/cachefile`, and both `remove_cache_item` and an overwriting
`insert_cache_item` call `remove_dir_all` on that file path, failing with
a NotADirectory I/O error instead of deleting the key's directory, which
remains on disk. -/
theorem C9_remove_demoted_fails_notADirectory :
    c2After.memdb.lookup "k" = some ⟨none, 10, 0, some ["cache", "k", "cachefile"]⟩
    ∧ (fs2After.files.lookup ["cache", "k", "cachefile"]).isSome = true
    ∧ c2After.remove_cache_item fs2After "k" = .error .notADirectory
    ∧ c2After.insert_cache_item fs2After "k" [9] 20 0 = .error .notADirectory
    ∧ fs2After.dirs.contains ["cache", "k"] = true :=
  ⟨rfl, rfl, rfl, rfl, rfl⟩

set_option maxRecDepth 4096

/-- C4 counterexample: previous RAM budget 100, `ram_used` 200, new RAM
budget 150. The new budget is below `ram_used`, so the claim prescribes a
memory-cleanup for 50 bytes (which would demote the only entry); the code
compares the new budget against the previous budget instead, runs no
cleanup, and returns the state unchanged except the stored budgets — the
entry stays memory resident. -/
theorem C4_counterexample :
    cC4.resize_cache fs0 (some 150) (some TEN_GIBIBYTE) none =
      .ok ({ cC4 with max_ram_cache := 150 }, fs0)
    ∧ 150 < cC4.memdb_size
    ∧ itemBig.get_mem_size = 200
    ∧ (∃ d, cC4.memdb.lookup "k" = some d ∧ d.value.isSome = true)
    ∧ cleanup_mem cC4.memdb fs0 .Combined (cC4.memdb_size - 150) cC4.cache_path =
        .ok (128, [("k", ⟨none, 10, 0, some ["cache", "k", "cachefile"]⟩)],
             { files := [(["cache", "k", "cachefile"], List.replicate 128 7)],
               dirs := [["cache", "k"], ["cache"]] }) :=
  ⟨rfl, by decide, rfl, ⟨itemBig, rfl, rfl⟩, by rfl⟩

/-- C4 (amended): for every resize call, the store's memory-cleanup
algorithm is invoked exactly when the new RAM budget (after default
substitution) is smaller than both the previous RAM budget and the current
`ram_used`, and then with a target of `ram_used - new_ram_budget` bytes;
otherwise only the stored budgets change. -/
theorem C4_mem_cleanup_trigger_condition (c : Cache) (fs : FS) (mr md : Option Nat)
    (strat : Option CleanseStrategy) :
    c.resize_cache fs mr md strat = resizeAmendedSpec c fs mr md strat := by
  unfold Cache.resize_cache resizeAmendedSpec Cache.cleanup_mem_cache Cache.cleanup_disk_cache
  simp only [ite_self]
  by_cases h1 : mr.getD ONE_GIBIBYTE < c.max_ram_cache
  · rw [if_pos h1]
    by_cases h2 : c.memdb_size ≤ mr.getD ONE_GIBIBYTE
    · rw [if_pos h2, if_neg (by omega)]
    · rw [if_neg h2, if_pos (⟨h1, by omega⟩ :
        mr.getD ONE_GIBIBYTE < c.max_ram_cache ∧ mr.getD ONE_GIBIBYTE < c.memdb_size)]
      cases hcm : cleanup_mem c.memdb fs (strat.getD .Combined)
          (c.memdb_size - mr.getD ONE_GIBIBYTE) c.cache_path with
      | error e => rfl
      | ok r =>
          obtain ⟨ds, db2, fs2⟩ := r
          rfl
  · rw [if_neg h1, if_neg (fun hc => h1 hc.1)]

/-- C7: the memory-cleanup selection walk equals its spec description
(stop at `to_free = 0` or end of list; select exactly the candidates whose
disk footprint reads zero, subtracting their memory footprint saturating
at 0; skip candidates whose footprint read errored — conjuncts 1 to 3);
and on a duplicate-free index a successful pass stores every selected key
back with its payload cleared, `filepath` at `cache_path/key/cachefile`,
the payload bytes in that file and its directory present, while entries
not selected (including all already-demoted ones) are unchanged
(conjunct 4). -/
theorem C7_memory_cleanup_pass :
    (∀ (keys : List KeyInfo) (t : Nat), selectToDisk keys t = selectToDiskSpec keys t)
    ∧ (∀ (keys : List KeyInfo) (t : Nat) (k : String),
        k ∈ selectToDisk keys t → ∃ e, e ∈ keys ∧ e.key = k ∧ e.dsize = .ok 0)
    ∧ (∀ keys : List KeyInfo, selectToDisk keys 0 = [])
    ∧ (∀ (db : DB) (fs : FS) (strat : CleanseStrategy) (t : Nat) (path : FsPath)
         (ds : Nat) (db2 : DB) (fs2 : FS),
        (db.map Prod.fst).Nodup →
        cleanup_mem db fs strat t path = .ok (ds, db2, fs2) →
        (∀ k ∈ selectToDisk (get_keys db fs strat) t,
           ∃ orig pl, db.lookup k = some orig ∧ orig.value = some pl ∧
             db2.lookup k = some (demotedItem path k orig) ∧
             fs2.files.lookup (path ++ [k] ++ ["cachefile"]) = some pl ∧
             fs2.dirs.contains (path ++ [k]) = true)
        ∧ (∀ k, k ∉ selectToDisk (get_keys db fs strat) t →
             db2.lookup k = db.lookup k)) := by
  refine ⟨selectToDisk_eq_spec, selectToDisk_sound, ?_, ?_⟩
  · intro keys
    cases keys <;> rfl
  · intro db fs strat t path ds db2 fs2 hnd hok
    have h := demoteLoop_effects path (selectToDisk (get_keys db fs strat) t) db fs 0 ds
      db2 fs2 (selected_nodup db fs strat t hnd) hok
    exact ⟨h.1, h.2.1⟩

/-- Witness for C7: a concrete one-entry pass at target 50 demotes the
entry, leaving its 128 payload bytes at `cache/k/cachefile`. -/
theorem C7_memory_cleanup_pass_witness :
    ∃ orig pl, ([("k", itemBig)] : DB).lookup "k" = some orig ∧ orig.value = some pl ∧
      ([("k", (⟨none, 10, 0, some ["cache", "k", "cachefile"]⟩ : DatabaseItem))] :
          DB).lookup "k" = some (demotedItem ["cache"] "k" orig) ∧
      ({ files := [(["cache", "k", "cachefile"], List.replicate 128 7)],
         dirs := [["cache", "k"], ["cache"]] } : FS).files.lookup
        (["cache"] ++ ["k"] ++ ["cachefile"]) = some pl ∧
      ({ files := [(["cache", "k", "cachefile"], List.replicate 128 7)],
         dirs := [["cache", "k"], ["cache"]] } : FS).dirs.contains
        (["cache"] ++ ["k"]) = true :=
  ((C7_memory_cleanup_pass.2.2.2 [("k", itemBig)] fs0 .Combined 50 ["cache"] 128
      [("k", ⟨none, 10, 0, some ["cache", "k", "cachefile"]⟩)]
      { files := [(["cache", "k", "cachefile"], List.replicate 128 7)],
        dirs := [["cache", "k"], ["cache"]] }
      (by decide) (by rfl)).1) "k" (by decide)

/-- Memory-tier hit of `get_cache_value`: a payload-carrying entry is
returned as-is, with only its access bookkeeping refreshed. -/
theorem get_cache_value_mem_hit (c : Cache) (fs : FS) (key : String) (now : Nat)
    (it : DatabaseItem) (v : Bytes)
    (hl : c.memdb.lookup key = some it) (hv : it.value = some v) :
    c.get_cache_value fs key now =
      .ok (some v, { c with memdb := alistSet c.memdb key (refreshedItem it now) }) := by
  unfold Cache.get_cache_value Cache.get_cache_item
  rw [hl]
  simp [refreshedItem, hv]

/-- Disk-tier hit of `get_cache_value`: a payload-less entry whose
recorded file exists is served from the file's bytes. -/
theorem get_cache_value_disk_hit (c : Cache) (fs : FS) (key : String) (now : Nat)
    (it : DatabaseItem) (fp : FsPath) (bytes : Bytes)
    (hl : c.memdb.lookup key = some it) (hv : it.value = none)
    (hf : it.filepath = some fp) (hfile : fs.files.lookup fp = some bytes) :
    c.get_cache_value fs key now =
      .ok (some bytes, { c with memdb := alistSet c.memdb key (refreshedItem it now) }) := by
  have hex : fs.existsPath fp = true := by
    unfold FS.existsPath
    rw [hfile]
    rfl
  unfold Cache.get_cache_value Cache.get_cache_item
  rw [hl]
  simp [refreshedItem, hv, hf, hex, hfile]

/-- Disk-tier miss of `get_cache_value`: a payload-less entry whose
recorded file no longer exists yields `none`, not an error. -/
theorem get_cache_value_disk_miss (c : Cache) (fs : FS) (key : String) (now : Nat)
    (it : DatabaseItem) (fp : FsPath)
    (hl : c.memdb.lookup key = some it) (hv : it.value = none)
    (hf : it.filepath = some fp) (hex : fs.existsPath fp = false) :
    c.get_cache_value fs key now =
      .ok (none, { c with memdb := alistSet c.memdb key (refreshedItem it now) }) := by
  unfold Cache.get_cache_value Cache.get_cache_item
  rw [hl]
  simp [refreshedItem, hv, hf, hex]

/-- C8: an insert followed by a get returns exactly the inserted bytes; a
get on a demoted entry whose recorded file holds the bytes returns exactly
those bytes from disk without changing `memdb_size`; and a get on a
demoted entry whose recorded file no longer exists returns `none` rather
than an error. -/
theorem C8_round_trip :
    (∀ (c : Cache) (fs : FS) (key : String) (value : Bytes) (now r now2 : Nat)
       (old : Option DatabaseItem) (c2 : Cache) (fs2 : FS),
       c.insert_cache_item fs key value now r = .ok (old, c2, fs2) →
       ∃ c3, c2.get_cache_value fs2 key now2 = .ok (some value, c3))
    ∧ (∀ (c : Cache) (fs : FS) (key : String) (now : Nat) (it : DatabaseItem)
         (fp : FsPath) (bytes : Bytes),
         c.memdb.lookup key = some it → it.value = none → it.filepath = some fp →
         fs.files.lookup fp = some bytes →
         ∃ c3, c.get_cache_value fs key now = .ok (some bytes, c3) ∧
           c3.memdb_size = c.memdb_size)
    ∧ (∀ (c : Cache) (fs : FS) (key : String) (now : Nat) (it : DatabaseItem)
         (fp : FsPath),
         c.memdb.lookup key = some it → it.value = none → it.filepath = some fp →
         fs.existsPath fp = false →
         ∃ c3, c.get_cache_value fs key now = .ok (none, c3)) := by
  refine ⟨?_, ?_, ?_⟩
  · intro c fs key value now r now2 old c2 fs2 h
    unfold Cache.insert_cache_item at h
    cases hrm : c.remove_cache_item fs key with
    | error e => rw [hrm] at h; exact absurd h (by simp)
    | ok t =>
        obtain ⟨o1, c1, fs1⟩ := t
        rw [hrm] at h
        simp only [Except.ok.injEq, Prod.mk.injEq] at h
        obtain ⟨ho, hc2, hf2⟩ := h
        subst hc2
        exact ⟨_, get_cache_value_mem_hit _ fs2 key now2 ⟨some value, now, r, none⟩ value
          (lookup_alistSet_self c1.memdb key _) rfl⟩
  · intro c fs key now it fp bytes hl hv hf hfile
    exact ⟨_, get_cache_value_disk_hit c fs key now it fp bytes hl hv hf hfile, rfl⟩
  · intro c fs key now it fp hl hv hf hex
    exact ⟨_, get_cache_value_disk_miss c fs key now it fp hl hv hf hex⟩

/-- Witness for C8: the three round-trip facts at concrete states — fresh
insert of bytes 1,2,3 under `k`, a demoted `k` whose cachefile holds those
bytes, and a demoted `k` whose cachefile is gone. -/
theorem C8_round_trip_witness :
    (∃ c3, c1After.get_cache_value fs0 "k" 12 = .ok (some [1, 2, 3], c3))
    ∧ (∃ c3, c2After.get_cache_value fs2After "k" 30 = .ok (some [1, 2, 3], c3) ∧
         c3.memdb_size = c2After.memdb_size)
    ∧ (∃ c3, cD.get_cache_value fs0 "k" 30 = .ok (none, c3)) :=
  ⟨C8_round_trip.1 c0 fs0 "k" [1, 2, 3] 10 0 12 none c1After fs0 (by rfl),
   C8_round_trip.2.1 c2After fs2After "k" 30 ⟨none, 10, 0, some ["cache", "k", "cachefile"]⟩
     ["cache", "k", "cachefile"] [1, 2, 3] (by rfl) (by rfl) (by rfl) (by rfl),
   C8_round_trip.2.2 cD fs0 "k" 30 demotedK ["cache", "k", "cachefile"]
     (by rfl) (by rfl) (by rfl) (by rfl)⟩

/-- C10: under the tier invariant — every entry whose disk footprint reads
0 has a payload — a duplicate-free index can never make the memory-cleanup
pass hit its missing-payload `expect`; conversely, a demoted entry whose
disk file was deleted externally has disk footprint 0 and payload `none`,
the pass selects it, and the extraction fails with the panic instead of an
`io` error. -/
theorem C10_payload_extraction_panic :
    (∀ (db : DB) (fs : FS) (strat : CleanseStrategy) (t : Nat) (path : FsPath),
       (db.map Prod.fst).Nodup →
       (∀ kv ∈ db, kv.2.get_disk_size fs = .ok 0 → kv.2.value.isSome = true) →
       cleanup_mem db fs strat t path ≠ .error .panicNoValue)
    ∧ (⟨none, 10, 0, some ["cache", "k", "cachefile"]⟩ : DatabaseItem).get_disk_size fs0 =
        .ok 0
    ∧ cleanup_mem dbGone fs0 .Combined 5 ["cache"] = .error .panicNoValue :=
  ⟨fun db fs strat t path hnd hinv => cleanup_mem_no_panic db fs strat t path hnd hinv,
   by rfl, by rfl⟩

/-- Witness for C10: on a well-formed one-entry index the pass cannot
produce the missing-payload panic, and indeed demotes the entry. -/
theorem C10_payload_extraction_panic_witness :
    cleanup_mem [("a", ⟨some [1], 5, 0, none⟩)] fs0 .Combined 100 ["cache"]
        ≠ .error .panicNoValue
    ∧ cleanup_mem [("a", ⟨some [1], 5, 0, none⟩)] fs0 .Combined 100 ["cache"] =
        .ok (1, [("a", ⟨none, 5, 0, some ["cache", "a", "cachefile"]⟩)],
             { files := [(["cache", "a", "cachefile"], [1])],
               dirs := [["cache", "a"], ["cache"]] }) :=
  ⟨C10_payload_extraction_panic.1 [("a", ⟨some [1], 5, 0, none⟩)] fs0 .Combined 100
     ["cache"] (by decide) (by decide), by rfl⟩

end RustFastCache
